import Mathlib

/-!
Verification development for the network-topology resolver of the
semiotic-ai/gateway repository.

The Rust sources under `graph-gateway/src/network/internal.rs`,
`gateway-framework/src/topology/network.rs` and
`gateway-framework/src/auth/methods/common.rs` are shallowly embedded as
executable Lean definitions: per-step async functions become pure functions
that take each probe's outcome as an `Option`-valued argument (`none` is a
failed probe), Rust `Result<T>` return values become `Option T` (`none` is
the `Err` case), `HashMap` collection becomes an association list
deduplicated on keys keeping the last binding, and `u128` sums are taken
modulo `2 ^ 128`.
-/

set_option maxRecDepth 4096

/-- 20-byte on-chain address (indexer or allocation id), modelled as `Nat`. -/
abbrev Addr := Nat

/-- Content address of a deployment manifest, modelled as `Nat`. -/
abbrev DeploymentId := Nat

/-- Opaque 32-byte subgraph key, modelled as `Nat`. -/
abbrev SubgraphId := Nat

/-- A public proof-of-indexing value, modelled as `Nat`. -/
abbrev Poi := Nat

/-- The modulus of Rust `u128` arithmetic. -/
def u128Mod : Nat := 2 ^ 128

/-- Semantic version, restricted to the release triple (the claims under
study never compare pre-release tags). -/
structure Version where
  major : Nat
  minor : Nat
  patch : Nat
deriving DecidableEq, Repr

/-- Strict order on versions: lexicographic on major, minor, patch, as the
semver crate compares release triples. -/
def vlt (a b : Version) : Bool :=
  a.major < b.major
    || (a.major = b.major && (a.minor < b.minor
    || (a.minor = b.minor && a.patch < b.patch)))

theorem vlt_irrefl (v : Version) : vlt v v = false := by
  simp [vlt]

/-! ## A model of the external `url` crate

The spec (§1) treats the URL parser as an external collaborator; its parse
and join operations are modelled here after the WHATWG grammar the crate
implements, reduced to the fields the gateway reads: the (lowercased)
scheme, the optional host, and whether the URL is cannot-be-a-base (an
opaque path after the scheme, as in `mailto:x`), which is exactly the
condition under which `Url::join` fails. -/

structure Url where
  scheme : String
  host : Option String
  cannotBeABase : Bool
deriving DecidableEq, Repr

/-- Split a character list at the first occurrence of `sep`; `none` when
`sep` does not occur. -/
def splitAtChar (sep : Char) : List Char → Option (List Char × List Char)
  | [] => none
  | c :: cs =>
    if c = sep then some ([], cs)
    else (splitAtChar sep cs).map (fun p => (c :: p.1, p.2))

/-- Characters allowed in a URL scheme after the leading letter. -/
def isSchemeChar (c : Char) : Bool :=
  c.isAlphanum || c = '+' || c = '-' || c = '.'

/-- The WHATWG special schemes, which always carry a host. -/
def specialSchemes : List String := ["http", "https", "ws", "wss", "ftp", "file"]

/-- Characters that terminate the host component of an authority. -/
def isHostEnd (c : Char) : Bool :=
  c = '/' || c = '?' || c = '#' || c = ':'

/-- Modelled from the spec: the external url crate parser (§1 external
collaborators). The scheme is everything before the first colon (a letter
followed by scheme characters, lowercased). A special scheme is followed by
a mandatory non-empty host (after skipping slashes); a non-special scheme
followed by two slashes has an authority holding an optional host; a
non-special scheme with anything else is a cannot-be-a-base URL with no
host. -/
def Url.parse (s : String) : Option Url :=
  match splitAtChar ':' s.toList with
  | none => none
  | some ([], _) => none
  | some (c :: cs, rest) =>
    if !c.isAlpha then none
    else if !cs.all isSchemeChar then none
    else
      let scheme := String.mk ((c :: cs).map Char.toLower)
      if specialSchemes.contains scheme then
        let afterSlashes := rest.dropWhile (fun ch => ch = '/' || ch = '\\')
        let hostCs := afterSlashes.takeWhile (fun ch => !isHostEnd ch)
        if hostCs.isEmpty then none
        else some { scheme := scheme, host := some (String.mk hostCs), cannotBeABase := false }
      else
        match rest with
        | '/' :: '/' :: rest2 =>
          let hostCs := rest2.takeWhile (fun ch => !isHostEnd ch)
          some { scheme := scheme
                 host := if hostCs.isEmpty then none else some (String.mk hostCs)
                 cannotBeABase := false }
        | _ => some { scheme := scheme, host := none, cannotBeABase := true }

/-- Modelled from the spec: `Url::join` of the external url crate, reduced
to its success or failure. Joining a relative path onto a cannot-be-a-base
URL fails; on any other base it succeeds (the claims only inspect
success, never the joined path). -/
def Url.join (u : Url) (_rel : String) : Option Url :=
  if u.cannotBeABase then none else some u

/-! ## Association-list model of `HashMap` collection -/

/-- First binding of key `k` in an association list, as `HashMap::get`. -/
def alookup {α β : Type} [DecidableEq α] (l : List (α × β)) (k : α) : Option β :=
  match l with
  | [] => none
  | p :: rest => if p.1 = k then some p.2 else alookup rest k

/-- Collecting an iterator of pairs into a `HashMap`: for every key the last
binding wins. The result keeps one binding per key. -/
def toMap {α β : Type} [DecidableEq α] : List (α × β) → List (α × β)
  | [] => []
  | p :: rest => if rest.any (fun q => q.1 = p.1) then toMap rest else p :: toMap rest

theorem toMap_eq_nil {α β : Type} [DecidableEq α] (l : List (α × β)) :
    toMap l = [] ↔ l = [] := by
  induction l with
  | nil => simp [toMap]
  | cons p rest ih =>
    simp only [toMap]
    by_cases h : rest.any (fun q => q.1 = p.1)
    · simp only [if_pos h]
      constructor
      · intro hm
        rcases List.any_eq_true.mp h with ⟨q, hq, _⟩
        rw [ih.mp hm] at hq
        exact absurd hq (List.not_mem_nil q)
      · intro hc; exact absurd hc (List.cons_ne_nil p rest)
    · simp [if_neg h]

theorem toMap_subset {α β : Type} [DecidableEq α] (l : List (α × β)) :
    ∀ p ∈ toMap l, p ∈ l := by
  induction l with
  | nil => simp [toMap]
  | cons q rest ih =>
    intro p hp
    simp only [toMap] at hp
    by_cases h : rest.any (fun r => r.1 = q.1)
    · rw [if_pos h] at hp
      exact List.mem_cons_of_mem q (ih p hp)
    · rw [if_neg h] at hp
      rcases List.mem_cons.mp hp with h1 | h2
      · exact h1 ▸ List.mem_cons_self q rest
      · exact List.mem_cons_of_mem q (ih p h2)

theorem mem_keys_toMap {α β : Type} [DecidableEq α] (l : List (α × β)) (k : α) :
    (∃ v, (k, v) ∈ toMap l) ↔ (∃ v, (k, v) ∈ l) := by
  induction l with
  | nil => simp [toMap]
  | cons p rest ih =>
    simp only [toMap]
    by_cases h : rest.any (fun q => q.1 = p.1)
    · rw [if_pos h]
      constructor
      · rintro ⟨v, hv⟩
        exact ⟨v, List.mem_cons_of_mem p (toMap_subset rest _ hv)⟩
      · rintro ⟨v, hv⟩
        rcases List.mem_cons.mp hv with h1 | h2
        · rcases List.any_eq_true.mp h with ⟨q, hq, hqk⟩
          have hk : q.1 = k := by
            have : p.1 = k := congrArg Prod.fst h1.symm
            simpa [this] using of_decide_eq_true hqk
          exact ih.mpr ⟨q.2, by simpa [← hk] using hq⟩
        · exact ih.mpr ⟨v, h2⟩
    · rw [if_neg h]
      constructor
      · rintro ⟨v, hv⟩
        rcases List.mem_cons.mp hv with h1 | h2
        · exact ⟨v, h1 ▸ List.mem_cons_self p rest⟩
        · exact ⟨v, List.mem_cons_of_mem p (toMap_subset rest _ h2)⟩
      · rintro ⟨v, hv⟩
        rcases List.mem_cons.mp hv with h1 | h2
        · exact ⟨v, h1 ▸ List.mem_cons_self p _⟩
        · rcases ih.mpr ⟨v, h2⟩ with ⟨w, hw⟩
          exact ⟨w, List.mem_cons_of_mem p hw⟩

theorem alookup_isSome {α β : Type} [DecidableEq α] (l : List (α × β)) (k : α) :
    (alookup l k).isSome ↔ ∃ v, (k, v) ∈ l := by
  induction l with
  | nil => simp [alookup]
  | cons p rest ih =>
    simp only [alookup]
    by_cases h : p.1 = k
    · simp only [if_pos h, Option.isSome_some, true_iff]
      exact ⟨p.2, by simp [← h]⟩
    · rw [if_neg h]
      rw [ih]
      constructor
      · rintro ⟨v, hv⟩; exact ⟨v, List.mem_cons_of_mem p hv⟩
      · rintro ⟨v, hv⟩
        rcases List.mem_cons.mp hv with h1 | h2
        · exact absurd (congrArg Prod.fst h1.symm) h
        · exact ⟨v, h2⟩

/-- itertools `unique()`: deduplicate keeping the first occurrence, with an
accumulator of already-seen elements. -/
def uniqueAux {α : Type} [DecidableEq α] (seen : List α) : List α → List α
  | [] => []
  | x :: xs =>
    if x ∈ seen then uniqueAux seen xs else x :: uniqueAux (x :: seen) xs

/-- itertools `unique()` on a list. -/
def uniqueL {α : Type} [DecidableEq α] (l : List α) : List α := uniqueAux [] l

theorem mem_uniqueAux {α : Type} [DecidableEq α] (l : List α) :
    ∀ (seen : List α) (x : α), x ∈ uniqueAux seen l ↔ x ∈ l ∧ x ∉ seen := by
  induction l with
  | nil => intro seen x; simp [uniqueAux]
  | cons y ys ih =>
    intro seen x
    simp only [uniqueAux]
    by_cases h : y ∈ seen
    · rw [if_pos h, ih]
      constructor
      · rintro ⟨h1, h2⟩; exact ⟨List.mem_cons_of_mem y h1, h2⟩
      · rintro ⟨h1, h2⟩
        rcases List.mem_cons.mp h1 with rfl | h3
        · exact absurd h h2
        · exact ⟨h3, h2⟩
    · rw [if_neg h]
      constructor
      · intro hx
        rcases List.mem_cons.mp hx with rfl | h2
        · exact ⟨List.mem_cons_self x ys, h⟩
        · rcases (ih (y :: seen) x).mp h2 with ⟨h3, h4⟩
          refine ⟨List.mem_cons_of_mem y h3, fun hc => h4 (List.mem_cons_of_mem y hc)⟩
      · rintro ⟨h1, h2⟩
        rcases List.mem_cons.mp h1 with rfl | h3
        · exact List.mem_cons_self x _
        · by_cases hxy : x = y
          · exact hxy ▸ List.mem_cons_self x _
          · exact List.mem_cons_of_mem y ((ih (y :: seen) x).mpr
              ⟨h3, fun hc => (List.mem_cons.mp hc).elim hxy h2⟩)

theorem mem_uniqueL {α : Type} [DecidableEq α] (l : List α) (x : α) :
    x ∈ uniqueL l ↔ x ∈ l := by
  rw [uniqueL, mem_uniqueAux]
  simp

theorem uniqueL_cons_ne_nil {α : Type} [DecidableEq α] (x : α) (xs : List α) :
    uniqueL (x :: xs) ≠ [] := by
  simp [uniqueL, uniqueAux]

/-! ## Raw registry types for the indexers fetch

Modelled from the spec: the `subgraph::types::fetch_indexers` module of
graph-gateway is not under `src/`; its record shapes are taken from the
spec's raw data model (§3: `RawIndexer { id, url?, staked_tokens }`,
`RawAllocation { id, indexer, allocated_tokens }`) and the fields read by
`try_into_internal_indexer_info` (`alloc.id`,
`alloc.subgraph_deployment.id`, `alloc.allocated_tokens`). -/

structure FIAllocation where
  id : Addr
  deployment : DeploymentId
  allocatedTokens : Nat
deriving DecidableEq, Repr

structure FIIndexer where
  id : Addr
  url : Option String
  stakedTokens : Nat
  allocations : List FIAllocation
deriving DecidableEq, Repr

/-! ## Raw registry types for the subgraphs fetch

Modelled from the spec: the `subgraph::types::fetch_subgraphs` module of
graph-gateway is not under `src/`; shapes follow the spec's raw data model
(§3) and the fields read by `try_into_internal_subgraph_info`. -/

structure FSManifest where
  network : Option String
  startBlock : Option Nat
deriving DecidableEq, Repr

structure FSAllocation where
  id : Addr
  indexer : Addr
deriving DecidableEq, Repr

structure FSDeployment where
  id : DeploymentId
  manifest : Option FSManifest
  allocations : List FSAllocation
  transferredToL2 : Bool
deriving DecidableEq, Repr

structure FSVersion where
  version : Nat
  subgraphDeployment : FSDeployment
deriving DecidableEq, Repr

structure FSSubgraph where
  id : SubgraphId
  idOnL2 : Option SubgraphId
  versions : List FSVersion
deriving DecidableEq, Repr

/-! ## Internal types (graph-gateway/src/network/internal.rs, mod types) -/

structure ProgressInfo where
  latestBlock : Nat
  minBlock : Option Nat
deriving DecidableEq, Repr

/-- A compiled cost model; the compiler is external (spec §1), so the
compiled form is opaque here. -/
abbrev CostModel := String

/-- `types::IndexerInfo`: internal representation of a fetched indexer.
`Vec1<DeploymentId>` is a `List` whose non-emptiness the embedded functions
check explicitly where the source constructs or retains the `Vec1`. -/
structure IndexerInfo where
  id : Addr
  url : Url
  stakedTokens : Nat
  deployments : List DeploymentId
  indexerAgentVersion : Version
  graphNodeVersion : Version
  largestAllocation : List (DeploymentId × Addr)
  totalAllocatedTokens : List (DeploymentId × Nat)
  indexingsProgress : List (DeploymentId × ProgressInfo)
  indexingsCostModel : List (DeploymentId × CostModel)
deriving DecidableEq, Repr

structure AllocationInfo where
  id : Addr
  indexer : Addr
deriving DecidableEq, Repr

structure DeploymentInfo where
  id : DeploymentId
  allocations : List AllocationInfo
  manifestNetwork : Option String
  manifestStartBlock : Option Nat
  transferredToL2 : Bool
deriving DecidableEq, Repr

structure SubgraphVersionInfo where
  version : Nat
  deployment : DeploymentInfo
deriving DecidableEq, Repr

structure SubgraphInfo where
  id : SubgraphId
  idOnL2 : Option SubgraphId
  versions : List SubgraphVersionInfo
deriving DecidableEq, Repr

/-! ## Pre-processing (internal.rs) -/

/-- Rust `str::starts_with`, over the character lists so that concrete
instances reduce inside the kernel. -/
def strStartsWith (s pre : String) : Bool :=
  pre.toList.isPrefixOf s.toList

/-- The record built by a successful `try_into_internal_indexer_info`:
deployments are the allocation deployments deduplicated in first-seen
order; for each deployment the largest allocation is the first matching
allocation (`.next()` on the filtered iterator) and the total is the `u128`
sum of the matching allocations' tokens. -/
def tryIntoBody (ind : FIIndexer) (url : Url) : IndexerInfo :=
  let deps := uniqueL (ind.allocations.map (fun a => a.deployment))
  { id := ind.id
    url := url
    stakedTokens := ind.stakedTokens
    deployments := deps
    indexerAgentVersion := ⟨0, 0, 0⟩
    graphNodeVersion := ⟨0, 0, 0⟩
    largestAllocation :=
      toMap (deps.filterMap (fun d =>
        (ind.allocations.find? (fun a => a.deployment = d)).map (fun a => (d, a.id))))
    totalAllocatedTokens :=
      toMap (deps.map (fun d =>
        (d, (((ind.allocations.filter (fun a => a.deployment = d)).map
          (fun a => a.allocatedTokens)).sum) % u128Mod)))
    indexingsProgress := []
    indexingsCostModel := [] }

/-- `try_into_internal_indexer_info`: validate a raw indexer and convert it
into the internal representation. `none` is the `Err` case (the indexer is
dropped). The URL parser is passed in, matching the call to
`indexer_url.parse::<Url>()`. -/
def tryIntoInternalIndexerInfo (parseUrl : String → Option Url) (ind : FIIndexer) :
    Option IndexerInfo :=
  match ind.url with
  | none => none
  | some urlStr =>
    match parseUrl urlStr with
    | none => none
    | some url =>
      if !strStartsWith url.scheme "http" then none
      else if url.host.isNone then none
      else
        match ind.allocations with
        | [] => none
        | _ :: _ =>
          match uniqueL (ind.allocations.map (fun a => a.deployment)) with
          | [] => none
          | _ :: _ => some (tryIntoBody ind url)

/-- `try_into_internal_subgraph_info`: a subgraph survives pre-processing
exactly when its version list is non-empty (the `Vec1` conversion). -/
def tryIntoInternalSubgraphInfo (s : FSSubgraph) : Option SubgraphInfo :=
  match s.versions with
  | [] => none
  | _ :: _ =>
    some
      { id := s.id
        idOnL2 := s.idOnL2
        versions := s.versions.map (fun v =>
          { version := v.version
            deployment :=
              { id := v.subgraphDeployment.id
                allocations := v.subgraphDeployment.allocations.map (fun a =>
                  { id := a.id, indexer := a.indexer })
                manifestNetwork := v.subgraphDeployment.manifest.bind (fun m => m.network)
                manifestStartBlock := v.subgraphDeployment.manifest.bind (fun m => m.startBlock)
                transferredToL2 := v.subgraphDeployment.transferredToL2 } }) }

/-- `fetch_and_pre_process_indexers_info`: the fetch outcome is passed as an
`Option` (`none` is a failed fetch); an empty fetch, and an empty survivor
map, are errors. -/
def fetchAndPreProcessIndexersInfo (fetchRes : Option (List FIIndexer)) :
    Option (List (Addr × IndexerInfo)) :=
  match fetchRes with
  | none => none
  | some indexers =>
    match indexers with
    | [] => none
    | _ :: _ =>
      let m := toMap (indexers.filterMap (fun i =>
        (tryIntoInternalIndexerInfo Url.parse i).map (fun info => (info.id, info))))
      match m with
      | [] => none
      | _ :: _ => some m

/-- `fetch_and_pre_process_subgraphs_info`, in the same shape. -/
def fetchAndPreProcessSubgraphsInfo (fetchRes : Option (List FSSubgraph)) :
    Option (List (SubgraphId × SubgraphInfo)) :=
  match fetchRes with
  | none => none
  | some subs =>
    match subs with
    | [] => none
    | _ :: _ =>
      let m := toMap (subs.filterMap (fun s =>
        (tryIntoInternalSubgraphInfo s).map (fun info => (info.id, info))))
      match m with
      | [] => none
      | _ :: _ => some m

/-! ## Blocklists and probe environments

The blocklist modules (`indexer_addr_blocklist`, `indexer_host_blocklist`,
`indexer_indexing_poi_blocklist`) and the resolvers are repository modules
not under `src/`; only `internal.rs` calls them. Their checks are modelled
from the spec (§4.3, §4.4, §4.6). -/

/-- Modelled from the spec (§4.4): a host resolution is the set of IP
addresses of the URL's host, each IP a `Nat`. -/
abbrev HostResolution := List Nat

/-- Modelled from the spec (§4.4): the host blocklist stores IP networks
(CIDR), each modelled as an inclusive address range. -/
abbrev HostBlocklistConf := List (Nat × Nat)

/-- Modelled from the spec (§4.4): `HostBlocklist::check(..).is_blocked()` —
blocked when any resolved IP falls within any configured network. -/
def hostBlocklistCheck (conf : HostBlocklistConf) (r : HostResolution) : Bool :=
  r.any (fun ip => conf.any (fun range => range.1 ≤ ip && ip ≤ range.2))

/-- Modelled from the spec (§4.6): the POI blocklist is a set of
`(deployment, block_number, forbidden_poi)` triples. -/
structure PoiBlocklistConf where
  triples : List (DeploymentId × Nat × Poi)
deriving DecidableEq, Repr

/-- Modelled from the spec (§4.6): `PoiBlocklist::affected_pois_metadata` —
the `(deployment, block)` pairs of configured triples whose deployment the
indexer serves. -/
def affectedPoisMetadata (conf : PoiBlocklistConf) (deployments : List DeploymentId) :
    List (DeploymentId × Nat) :=
  (conf.triples.filter (fun t => deployments.contains t.1)).map (fun t => (t.1, t.2.1))

/-- Modelled from the spec (§4.6): `PoiBlocklist::check` — from the probe's
returned POIs, a deployment maps to a blocked state exactly when it appears
in the result, and it is blocked when some returned POI for it equals a
forbidden POI configured at that block. -/
def poiCheck (conf : PoiBlocklistConf) (poiResult : List ((DeploymentId × Nat) × Poi))
    (d : DeploymentId) : Option Bool :=
  if poiResult.any (fun e => e.1.1 = d) then
    some (poiResult.any (fun e =>
      e.1.1 = d && conf.triples.contains (e.1.1, e.1.2, e.2)))
  else none

/-- The `InternalState` of internal.rs together with the outcome of every
probe a refresh may issue: each resolver becomes a function of the data the
source passes to it, returning `none` for a failed (or timed-out) probe. -/
structure InternalStateM where
  minAgentVersion : Version
  minGraphNodeVersion : Version
  addrBlocklist : Option (List Addr)
  hostResolve : Url → Option HostResolution
  hostBlocklist : Option HostBlocklistConf
  agentResolve : Url → Option Version
  nodeResolve : Url → Option Version
  poiBlocklist : Option PoiBlocklistConf
  poiResolve : Url → List (DeploymentId × Nat) → Option (List ((DeploymentId × Nat) × Poi))
  progressResolve : Url → List DeploymentId → Option (List (DeploymentId × ProgressInfo))
  costResolve : Url → List DeploymentId → Option (List (DeploymentId × String))
  costCompile : String → Option CostModel

/-! ## Per-indexer pipeline steps (internal.rs) -/

/-- `check_indexer_blocked_by_addr_blocklist`: no blocklist allows every
address; a configured blocklist blocks exactly its members (membership per
spec §4.3, the blocklist module is not under `src/`). -/
def checkIndexerBlockedByAddrBlocklist (blocklist : Option (List Addr))
    (ind : IndexerInfo) : Option Unit :=
  match blocklist with
  | none => some ()
  | some bl => if bl.contains ind.id then none else some ()

/-- `resolve_and_check_indexer_blocked_by_host_blocklist`: a failed
resolution blocks the indexer; otherwise no blocklist allows it, and a
configured blocklist blocks it exactly when the check matches the
resolution result. -/
def resolveAndCheckIndexerBlockedByHostBlocklist
    (resolve : Url → Option HostResolution) (blocklist : Option HostBlocklistConf)
    (ind : IndexerInfo) : Option Unit :=
  match resolve ind.url with
  | none => none
  | some r =>
    match blocklist with
    | none => some ()
    | some conf => if hostBlocklistCheck conf r then none else some ()

/-- `resolve_and_check_indexer_blocked_by_version`: a failed agent probe
blocks; an agent version below the minimum blocks; a failed graph-node
probe falls back to the minimum graph-node version; a graph-node version
below the minimum blocks; on success both versions are written into the
record. -/
def resolveAndCheckIndexerBlockedByVersion
    (agentResolve nodeResolve : Url → Option Version)
    (minAgent minNode : Version) (ind : IndexerInfo) : Option IndexerInfo :=
  match agentResolve ind.url with
  | none => none
  | some agentV =>
    if vlt agentV minAgent then none
    else
      let nodeV :=
        match nodeResolve ind.url with
        | none => minNode
        | some v => v
      if vlt nodeV minNode then none
      else some { ind with indexerAgentVersion := agentV, graphNodeVersion := nodeV }

/-- The `Vec1::retain` predicate of the POI check: keep a deployment when
the check result does not block it; deployments absent from the check
result are kept. -/
def poiKeptDeployments (conf : PoiBlocklistConf)
    (poiResult : List ((DeploymentId × Nat) × Poi)) (deps : List DeploymentId) :
    List DeploymentId :=
  deps.filter (fun d =>
    match poiCheck conf poiResult d with
    | some blocked => !blocked
    | none => true)

/-- `resolve_and_check_indexer_blocked_by_poi`: no configured blocklist, or
no affected deployment, allows the indexer without probing; a failed probe
blocks; otherwise deployments are retained exactly when the check result
does not block them, and emptying the deployments list (the `Vec1::retain`
error) blocks the indexer. -/
def resolveAndCheckIndexerBlockedByPoi (blocklist : Option PoiBlocklistConf)
    (poiResolve : Url → List (DeploymentId × Nat) → Option (List ((DeploymentId × Nat) × Poi)))
    (ind : IndexerInfo) : Option IndexerInfo :=
  match blocklist with
  | none => some ind
  | some conf =>
    match affectedPoisMetadata conf ind.deployments with
    | [] => some ind
    | a0 :: arest =>
      match poiResolve ind.url (a0 :: arest) with
      | none => none
      | some poiResult =>
        match poiKeptDeployments conf poiResult ind.deployments with
        | [] => none
        | k0 :: krest => some { ind with deployments := k0 :: krest }

/-- `resolve_indexer_indexing_progress_statuses`: a failed probe blocks the
indexer; a successful probe overwrites `indexings_progress` (deployments
absent from the response simply have no entry). -/
def resolveIndexerIndexingProgressStatuses
    (resolve : Url → List DeploymentId → Option (List (DeploymentId × ProgressInfo)))
    (ind : IndexerInfo) : Option IndexerInfo :=
  match resolve ind.url ind.deployments with
  | none => none
  | some res => some { ind with indexingsProgress := toMap res }

/-- `resolve_indexer_indexing_cost_models`: every path returns `Ok`; a
failed or empty resolution returns early leaving the record untouched;
otherwise sources that compile populate `indexings_cost_model`. -/
def resolveIndexerIndexingCostModels
    (resolve : Url → List DeploymentId → Option (List (DeploymentId × String)))
    (compile : String → Option CostModel) (ind : IndexerInfo) : Option IndexerInfo :=
  match resolve ind.url ind.deployments with
  | none => some ind
  | some res =>
    match res with
    | [] => some ind
    | _ :: _ =>
      some { ind with
        indexingsCostModel := toMap (res.filterMap (fun p =>
          (compile p.2).map (fun cm => (p.1, cm)))) }

/-- One indexer through the `process_indexers_info` pipeline, steps in the
source's order; `none` when any step drops the indexer. -/
def processIndexer (st : InternalStateM) (ind : IndexerInfo) : Option IndexerInfo :=
  match checkIndexerBlockedByAddrBlocklist st.addrBlocklist ind with
  | none => none
  | some _ =>
    match resolveAndCheckIndexerBlockedByHostBlocklist st.hostResolve st.hostBlocklist ind with
    | none => none
    | some _ =>
      match resolveAndCheckIndexerBlockedByVersion st.agentResolve st.nodeResolve
          st.minAgentVersion st.minGraphNodeVersion ind with
      | none => none
      | some ind1 =>
        match resolveAndCheckIndexerBlockedByPoi st.poiBlocklist st.poiResolve ind1 with
        | none => none
        | some ind2 =>
          match resolveIndexerIndexingProgressStatuses st.progressResolve ind2 with
          | none => none
          | some ind3 => resolveIndexerIndexingCostModels st.costResolve st.costCompile ind3

/-- `process_indexers_info`: every indexer runs the pipeline; dropped ones
are filtered out; zero survivors is an error. -/
def processIndexersInfo (st : InternalStateM) (indexers : List (Addr × IndexerInfo)) :
    Option (List (Addr × IndexerInfo)) :=
  let processed := indexers.filterMap (fun p =>
    (processIndexer st p.2).map (fun i => (p.1, i)))
  match toMap processed with
  | [] => none
  | m => some m

/-! ## Topology types (gateway-framework/src/network/network_subgraph.rs) -/

structure NSIndexer where
  id : Addr
  url : Option String
  stakedTokens : Nat
deriving DecidableEq, Repr

structure NSAllocation where
  id : Addr
  indexer : NSIndexer
  allocatedTokens : Nat
deriving DecidableEq, Repr

structure NSManifest where
  network : Option String
  startBlock : Option Nat
deriving DecidableEq, Repr

structure NSDeployment where
  id : DeploymentId
  allocations : List NSAllocation
  manifest : Option NSManifest
  transferredToL2 : Bool
deriving DecidableEq, Repr

structure NSVersion where
  subgraphDeployment : NSDeployment
deriving DecidableEq, Repr

structure NSSubgraph where
  id : SubgraphId
  idOnL2 : Option SubgraphId
  versions : List NSVersion
deriving DecidableEq, Repr

/-! ## Topology views (gateway-framework/src/topology/network.rs) -/

structure ManifestT where
  network : String
  minBlock : Nat
deriving DecidableEq, Repr

/-- `topology::network::Indexer`. -/
structure IndexerT where
  id : Addr
  url : Url
  stakedTokens : Nat
  largestAllocation : Addr
  allocatedTokens : Nat
deriving DecidableEq, Repr

/-- `Indexer::cost_url`: the `unwrap` on `Url::join` is modelled by the
`Option`; `none` is the panic. -/
def IndexerT.costUrl (i : IndexerT) : Option Url := i.url.join "cost"

/-- `Indexer::status_url`, same shape. -/
def IndexerT.statusUrl (i : IndexerT) : Option Url := i.url.join "status"

structure DeploymentT where
  id : DeploymentId
  manifest : ManifestT
  indexers : List (Addr × IndexerT)
  subgraphs : List SubgraphId
  transferredToL2 : Bool
deriving DecidableEq, Repr

structure SubgraphT where
  id : SubgraphId
  l2Id : Option SubgraphId
  deployments : List DeploymentT
deriving DecidableEq, Repr

/-- The deployment view `GraphNetwork::deployment` builds once the manifest
and its network are present: collapses each indexer's allocations into one
logical allocation keeping the last allocation's id and the summed tokens;
drops allocations whose indexer URL does not parse; removes ip-blocked
indexers afterwards (`ipBlocked` stands for the `IpBlocker`, an external
collaborator). -/
def graphNetworkDeploymentBody (subgraphs : List NSSubgraph) (ipBlocked : Url → Bool)
    (version : NSVersion) (m : NSManifest) (net : String) : DeploymentT :=
  let dep := version.subgraphDeployment
  let parsed := dep.allocations.filterMap (fun alloc =>
    match alloc.indexer.url with
    | none => none
    | some u =>
      match Url.parse u with
      | none => none
      | some url => some (alloc.indexer.id, alloc, url))
  let groupedKeys := uniqueL (parsed.map (fun p => p.1))
  let indexers := groupedKeys.filterMap (fun i =>
    let group := parsed.filter (fun p => p.1 = i)
    match group.getLast? with
    | none => none
    | some last =>
      some (i,
        { id := i
          url := last.2.2
          stakedTokens := last.2.1.indexer.stakedTokens
          largestAllocation := last.2.1.id
          allocatedTokens :=
            ((group.map (fun p => p.2.1.allocatedTokens)).sum) % u128Mod }))
  { id := dep.id
    manifest := { network := net, minBlock := m.startBlock.getD 0 }
    indexers := indexers.filter (fun p => !ipBlocked p.2.url)
    subgraphs := (subgraphs.filter (fun s =>
      s.versions.any (fun v => v.subgraphDeployment.id = dep.id))).map (fun s => s.id)
    transferredToL2 := dep.transferredToL2 && dep.allocations.isEmpty }

def graphNetworkDeployment (subgraphs : List NSSubgraph) (ipBlocked : Url → Bool)
    (version : NSVersion) : Option DeploymentT :=
  match version.subgraphDeployment.manifest with
  | none => none
  | some m =>
    match m.network with
    | none => none
    | some net => some (graphNetworkDeploymentBody subgraphs ipBlocked version m net)

/-- `GraphNetwork::subgraphs`: the subgraph lookup table; every input
subgraph is kept, its deployments list holding the versions whose
deployment view was built. -/
def graphNetworkSubgraphs (subgraphs : List NSSubgraph) (ipBlocked : Url → Bool) :
    List (SubgraphId × SubgraphT) :=
  toMap (subgraphs.map (fun s =>
    (s.id,
      { id := s.id
        l2Id := s.idOnL2
        deployments := s.versions.filterMap (graphNetworkDeployment subgraphs ipBlocked) })))

/-- The deployments lookup table of `GraphNetwork::new`: keyed by id over
every deployment of every subgraph view. -/
def graphNetworkDeployments (subgraphs : List NSSubgraph) (ipBlocked : Url → Bool) :
    List (DeploymentId × DeploymentT) :=
  toMap (((graphNetworkSubgraphs subgraphs ipBlocked).map (fun p => p.2)).flatMap
    (fun sg => sg.deployments.map (fun d => (d.id, d))))

/-! ## Authorization predicates (gateway-framework/src/auth/methods/common.rs) -/

def is_deployment_authorized (authorized : List DeploymentId)
    (deployment : DeploymentId) : Bool :=
  authorized.isEmpty || authorized.contains deployment

def are_deployments_authorized (authorized : List DeploymentId)
    (deployments : List DeploymentId) : Bool :=
  authorized.isEmpty || deployments.all (fun d => authorized.contains d)

def is_subgraph_authorized (authorized : List SubgraphId) (subgraph : SubgraphId) : Bool :=
  authorized.isEmpty || authorized.contains subgraph

def are_subgraphs_authorized (authorized : List SubgraphId)
    (subgraphs : List SubgraphId) : Bool :=
  authorized.isEmpty || subgraphs.all (fun s => authorized.contains s)

/-- The inner `match_domain` of `is_domain_authorized`: a pattern starting
with an asterisk matches any origin ending with the pattern minus its
leading asterisks (`trim_start_matches`). -/
def matchDomain (pattern origin : String) : Bool :=
  if pattern.startsWith "*" then
    origin.endsWith (String.mk (pattern.toList.dropWhile (fun c => c = '*')))
  else origin = pattern

def is_domain_authorized (authorized : List String) (origin : String) : Bool :=
  authorized.isEmpty || authorized.any (fun pattern => matchDomain pattern origin)

/-! ## Helper lemmas -/

theorem alookup_mem {α β : Type} [DecidableEq α] (l : List (α × β)) (k : α) (v : β)
    (h : alookup l k = some v) : (k, v) ∈ l := by
  induction l with
  | nil => simp [alookup] at h
  | cons p rest ih =>
    simp only [alookup] at h
    by_cases hk : p.1 = k
    · rw [if_pos hk] at h
      have hp : p = (k, v) := by
        cases p
        simp only [Option.some.injEq] at h
        simp_all
      rw [hp]
      exact List.mem_cons_self _ _
    · rw [if_neg hk] at h
      exact List.mem_cons_of_mem p (ih h)

theorem mem_match_filterMap {D γ β : Type} (g : D → Option γ) (f : D → γ → β)
    (ds : List D) (k : D) (v : β)
    (h : (k, v) ∈ ds.filterMap (fun x => (g x).map (fun y => (x, f x y)))) :
    ∃ c, g k = some c ∧ v = f k c := by
  rcases List.mem_filterMap.mp h with ⟨x, _, hx⟩
  cases hgx : g x with
  | none => rw [hgx] at hx; exact absurd hx (by simp)
  | some c =>
    rw [hgx] at hx
    simp only [Option.map_some'] at hx
    have h1 : x = k := congrArg Prod.fst (Option.some.inj hx)
    have h2 : f x c = v := congrArg Prod.snd (Option.some.inj hx)
    exact ⟨c, h1 ▸ hgx, h1 ▸ h2.symm⟩

theorem alookup_toMap_filterMap {D γ β : Type} [DecidableEq D]
    (g : D → Option γ) (f : D → γ → β) (ds : List D) (d : D) (b : γ)
    (hd : d ∈ ds) (hb : g d = some b) :
    alookup (toMap (ds.filterMap (fun x => (g x).map (fun y => (x, f x y))))) d =
      some (f d b) := by
  have hmemc : (d, f d b) ∈ ds.filterMap (fun x => (g x).map (fun y => (x, f x y))) :=
    List.mem_filterMap.mpr ⟨d, hd, by rw [hb]; rfl⟩
  have hex : ∃ v, (d, v) ∈
      toMap (ds.filterMap (fun x => (g x).map (fun y => (x, f x y)))) :=
    (mem_keys_toMap _ d).mpr ⟨f d b, hmemc⟩
  have hsome := (alookup_isSome _ d).mpr hex
  rcases Option.isSome_iff_exists.mp hsome with ⟨w, hw⟩
  have hmem := toMap_subset _ _ (alookup_mem _ _ _ hw)
  rcases mem_match_filterMap g f ds d w hmem with ⟨c, hc, hwc⟩
  rw [hb] at hc
  rw [hw, hwc, Option.some.inj hc]

theorem alookup_toMap_map {D β : Type} [DecidableEq D]
    (h : D → β) (ds : List D) (d : D) (hd : d ∈ ds) :
    alookup (toMap (ds.map (fun x => (x, h x)))) d = some (h d) := by
  have heq : ∀ l : List D, l.map (fun x => (x, h x)) = l.filterMap (fun x =>
      (some (h x)).map (fun y => (x, y))) := by
    intro l
    induction l with
    | nil => rfl
    | cons a rest ih =>
      simp only [List.map, List.filterMap_cons]
      exact congrArg (List.cons (a, h a)) ih
  rw [heq ds]
  exact alookup_toMap_filterMap (fun x => some (h x)) (fun _ y => y) ds d (h d) hd rfl

theorem find_pairwise_max {l : List FIAllocation} {d : DeploymentId} {a : FIAllocation}
    (hp : l.Pairwise (fun x y => y.allocatedTokens ≤ x.allocatedTokens))
    (hf : l.find? (fun x => decide (x.deployment = d)) = some a) :
    ∀ b ∈ l, b.deployment = d → b.allocatedTokens ≤ a.allocatedTokens := by
  induction l with
  | nil => simp at hf
  | cons x xs ih =>
    rcases List.pairwise_cons.mp hp with ⟨hx, hxs⟩
    by_cases hxd : x.deployment = d
    · have : (x :: xs).find? (fun y => decide (y.deployment = d)) = some x :=
        List.find?_cons_of_pos _ (by simp [hxd])
      rw [this] at hf
      have hax : a = x := (Option.some.inj hf).symm
      intro b hb _
      rcases List.mem_cons.mp hb with rfl | hbxs
      · exact hax ▸ Nat.le_refl _
      · exact hax ▸ hx b hbxs
    · have : (x :: xs).find? (fun y => decide (y.deployment = d)) =
          xs.find? (fun y => decide (y.deployment = d)) :=
        List.find?_cons_of_neg _ (by simp [hxd])
      rw [this] at hf
      intro b hb hbd
      rcases List.mem_cons.mp hb with rfl | hbxs
      · exact absurd hbd hxd
      · exact ih hxs hf b hbxs hbd

/-- Inversion of a successful `try_into_internal_indexer_info`. -/
theorem tryIntoInternalIndexerInfo_inv (parseUrl : String → Option Url)
    (ind : FIIndexer) (info : IndexerInfo)
    (h : tryIntoInternalIndexerInfo parseUrl ind = some info) :
    ∃ s u, ind.url = some s ∧ parseUrl s = some u ∧
      strStartsWith u.scheme "http" = true ∧ u.host ≠ none ∧
      ind.allocations ≠ [] ∧ info = tryIntoBody ind u := by
  unfold tryIntoInternalIndexerInfo at h
  split at h
  · exact Option.noConfusion h
  next s hurl =>
    split at h
    · exact Option.noConfusion h
    next u hparse =>
      split at h
      · exact Option.noConfusion h
      next hscheme =>
        split at h
        · exact Option.noConfusion h
        next hhost =>
          split at h
          · exact Option.noConfusion h
          next a0 arest hallocs =>
            split at h
            next hdeps =>
              rw [hallocs, List.map_cons] at hdeps
              exact absurd hdeps (uniqueL_cons_ne_nil _ _)
            next d0 drest hdeps =>
              refine ⟨s, u, hurl, hparse, ?_, ?_, ?_, (Option.some.inj h).symm⟩
              · simpa using hscheme
              · simpa using hhost
              · rw [hallocs]; simp

/-! ## Claim C1 -/

/-- The spec's notion (§3 rule 6) of the largest allocation of an indexer on
a deployment: maximal `allocated_tokens`, ties broken by allocation id
ascending. Stated from the spec's words for comparison against the source's
construction. -/
def specLargestAllocation (allocs : List FIAllocation) (d : DeploymentId) : Option Addr :=
  ((allocs.filter (fun a => a.deployment = d)).foldl (fun acc a =>
    match acc with
    | none => some a
    | some b =>
      if a.allocatedTokens > b.allocatedTokens
          || (a.allocatedTokens = b.allocatedTokens && a.id < b.id) then some a
      else some b) none).map (fun a => a.id)

/-- C1 counterexample input: one indexer, two allocations on deployment 5,
the first-fetched allocation (id 1) carrying fewer tokens than the second
(id 2). -/
def c1RawIndexer : FIIndexer :=
  { id := 9
    url := some "http://a"
    stakedTokens := 0
    allocations := [⟨1, 5, 1⟩, ⟨2, 5, 7⟩] }

/-- Claim C1, counterexample: the accepted indexer `c1RawIndexer` has two
allocations on deployment 5; the source keeps the first-fetched allocation
(id 1, 1 token) as `largest_allocation[5]`, while the allocation with
maximal `allocated_tokens` (ties by ascending id) is id 2 with 7 tokens. -/
theorem c1_largest_allocation_cex :
    tryIntoInternalIndexerInfo Url.parse c1RawIndexer =
      some (tryIntoBody c1RawIndexer ⟨"http", some "a", false⟩) ∧
    specLargestAllocation c1RawIndexer.allocations 5 = some 2 ∧
    alookup (tryIntoBody c1RawIndexer ⟨"http", some "a", false⟩).largestAllocation 5 =
      some 1 ∧
    alookup (tryIntoBody c1RawIndexer ⟨"http", some "a", false⟩).largestAllocation 5 ≠
      specLargestAllocation c1RawIndexer.allocations 5 := by
  refine ⟨by decide, by decide, by decide, by decide⟩

/-- Claim C1, amended: for every raw indexer accepted by pre-processing and every
deployment d in its deployments set, `largest_allocation[d]` is the id of
the FIRST allocation on d in the registry-given order (the maximal-tokens
allocation whenever the input arrives sorted descending by
`allocated_tokens`, as the source comments assume), and
`total_allocated_tokens[d]` is the `u128` sum of `allocated_tokens` over
that indexer's allocations on d. -/
theorem c1_largest_allocation_amended (ind : FIIndexer) (info : IndexerInfo)
    (hacc : tryIntoInternalIndexerInfo Url.parse ind = some info)
    (d : DeploymentId) (hd : d ∈ info.deployments) :
    ∃ a, ind.allocations.find? (fun x => x.deployment = d) = some a ∧
      a ∈ ind.allocations ∧ a.deployment = d ∧
      alookup info.largestAllocation d = some a.id ∧
      alookup info.totalAllocatedTokens d =
        some ((((ind.allocations.filter (fun x => x.deployment = d)).map
          (fun x => x.allocatedTokens)).sum) % u128Mod) ∧
      (ind.allocations.Pairwise (fun x y => y.allocatedTokens ≤ x.allocatedTokens) →
        ∀ b ∈ ind.allocations, b.deployment = d →
          b.allocatedTokens ≤ a.allocatedTokens) := by
  rcases tryIntoInternalIndexerInfo_inv _ _ _ hacc with ⟨s, u, _, _, _, _, _, hinfo⟩
  subst hinfo
  have hd1 : d ∈ uniqueL (ind.allocations.map (fun a => a.deployment)) := hd
  have hdm : d ∈ ind.allocations.map (fun a => a.deployment) := (mem_uniqueL _ _).mp hd1
  rcases List.mem_map.mp hdm with ⟨a0, ha0, ha0d⟩
  have hfs : (ind.allocations.find? (fun x => x.deployment = d)).isSome := by
    rw [List.find?_isSome]
    exact ⟨a0, ha0, by simp [ha0d]⟩
  rcases Option.isSome_iff_exists.mp hfs with ⟨a, hfa⟩
  refine ⟨a, hfa, List.mem_of_find?_eq_some hfa, by simpa using List.find?_some hfa,
    ?_, ?_, ?_⟩
  · exact alookup_toMap_filterMap
      (fun x => ind.allocations.find? (fun a => a.deployment = x))
      (fun _ y => y.id) _ d a hd1 hfa
  · exact alookup_toMap_map _ _ d hd1
  · intro hp b hb hbd
    exact find_pairwise_max hp hfa b hb hbd

/-- Witness input for claim C1: the same two allocations on deployment 5, fetched in
descending token order. -/
def c1SortedIndexer : FIIndexer :=
  { id := 9
    url := some "http://a"
    stakedTokens := 0
    allocations := [⟨2, 5, 7⟩, ⟨1, 5, 1⟩] }

/-- Witness for the amended C1 at `c1SortedIndexer` and deployment 5. -/
theorem c1_largest_allocation_amended_w :
    ∃ a, c1SortedIndexer.allocations.find? (fun x => x.deployment = 5) = some a ∧
      a ∈ c1SortedIndexer.allocations ∧ a.deployment = 5 ∧
      alookup (tryIntoBody c1SortedIndexer ⟨"http", some "a", false⟩).largestAllocation 5 =
        some a.id ∧
      alookup (tryIntoBody c1SortedIndexer ⟨"http", some "a", false⟩).totalAllocatedTokens 5 =
        some ((((c1SortedIndexer.allocations.filter (fun x => x.deployment = 5)).map
          (fun x => x.allocatedTokens)).sum) % u128Mod) ∧
      (c1SortedIndexer.allocations.Pairwise
          (fun x y => y.allocatedTokens ≤ x.allocatedTokens) →
        ∀ b ∈ c1SortedIndexer.allocations, b.deployment = 5 →
          b.allocatedTokens ≤ a.allocatedTokens) :=
  c1_largest_allocation_amended c1SortedIndexer
    (tryIntoBody c1SortedIndexer ⟨"http", some "a", false⟩) (by decide) 5 (by decide)

/-! ## Claim C2 -/

/-- Introduction rule matching `tryIntoInternalIndexerInfo_inv`: the checks
of `try_into_internal_indexer_info` are the only ways to fail. -/
theorem tryIntoInternalIndexerInfo_intro (parseUrl : String → Option Url)
    (ind : FIIndexer) (s : String) (u : Url)
    (h1 : ind.url = some s) (h2 : parseUrl s = some u)
    (h3 : strStartsWith u.scheme "http" = true)
    (h4 : u.host ≠ none) (h5 : ind.allocations ≠ []) :
    tryIntoInternalIndexerInfo parseUrl ind = some (tryIntoBody ind u) := by
  have hh : u.host.isNone = false := by
    cases hu : u.host
    · exact absurd hu h4
    · simp [hu]
  cases hA : ind.allocations with
  | nil => exact absurd hA h5
  | cons a0 arest =>
    cases hD : uniqueL ((a0 :: arest).map (fun a => a.deployment)) with
    | nil =>
      rw [List.map_cons] at hD
      exact absurd hD (uniqueL_cons_ne_nil _ _)
    | cons d0 drest =>
      simp only [tryIntoInternalIndexerInfo, h1, h2, h3, hh, hA, hD,
        Bool.not_true, Bool.not_false, Bool.false_eq_true, if_false, ite_false]

/-- Counterexample input for claim C2: the indexer URL has scheme `httpx`, which is
neither `http` nor `https` but passes the source's
`scheme().starts_with("http")` check (and the url crate parses it with a
non-empty host). -/
def c2RawIndexer : FIIndexer :=
  { id := 3
    url := some "httpx://example.com"
    stakedTokens := 0
    allocations := [⟨1, 4, 2⟩] }

/-- Claim C2, counterexample: `c2RawIndexer` is accepted by pre-processing even
though its parsed scheme is neither `http` nor `https`; the claimed
"accepted only if scheme is http or https" fails, as does the claimed
consequence about surviving URLs. -/
theorem c2_preprocess_accept_cex :
    tryIntoInternalIndexerInfo Url.parse c2RawIndexer =
      some (tryIntoBody c2RawIndexer ⟨"httpx", some "example.com", false⟩) ∧
    (tryIntoBody c2RawIndexer ⟨"httpx", some "example.com", false⟩).url.scheme ≠ "http" ∧
    (tryIntoBody c2RawIndexer ⟨"httpx", some "example.com", false⟩).url.scheme ≠ "https" := by
  refine ⟨by decide, by decide, by decide⟩

/-- Claim C2, amended: pre-processing accepts a raw indexer iff its URL is
present, the URL parses, the parsed scheme STARTS WITH "http" (this also lets through
schemes such as `httpx`; `http` and `https` both qualify), the host is
present, the indexer has at least one allocation, and at least one distinct
deployment is derived; consequently every surviving `IndexerInfo.url` has a
scheme starting with "http" and a host. -/
theorem c2_preprocess_accept_amended (ind : FIIndexer) :
    ((tryIntoInternalIndexerInfo Url.parse ind).isSome = true ↔
      (∃ s u, ind.url = some s ∧ Url.parse s = some u ∧
        strStartsWith u.scheme "http" = true ∧ u.host ≠ none ∧
        ind.allocations ≠ [] ∧
        uniqueL (ind.allocations.map (fun a => a.deployment)) ≠ [])) ∧
    (∀ info, tryIntoInternalIndexerInfo Url.parse ind = some info →
      strStartsWith info.url.scheme "http" = true ∧ info.url.host ≠ none) := by
  constructor
  · constructor
    · intro hs
      rcases Option.isSome_iff_exists.mp hs with ⟨info, hinfo⟩
      rcases tryIntoInternalIndexerInfo_inv _ _ _ hinfo with ⟨s, u, h1, h2, h3, h4, h5, _⟩
      refine ⟨s, u, h1, h2, h3, h4, h5, ?_⟩
      cases hA : ind.allocations with
      | nil => exact absurd hA h5
      | cons a0 arest =>
        rw [List.map_cons]
        exact uniqueL_cons_ne_nil _ _
    · rintro ⟨s, u, h1, h2, h3, h4, h5, _⟩
      rw [tryIntoInternalIndexerInfo_intro Url.parse ind s u h1 h2 h3 h4 h5]
      rfl
  · intro info hinfo
    rcases tryIntoInternalIndexerInfo_inv _ _ _ hinfo with ⟨s, u, _, _, h3, h4, _, hbody⟩
    subst hbody
    exact ⟨h3, h4⟩

/-- Witness input for claim C2: a plainly valid HTTPS indexer. -/
def c2OkIndexer : FIIndexer :=
  { id := 4
    url := some "https://idx.example"
    stakedTokens := 1
    allocations := [⟨7, 2, 3⟩] }

/-- Witness for the amended C2 at `c2OkIndexer`. -/
theorem c2_preprocess_accept_amended_w :
    (tryIntoInternalIndexerInfo Url.parse c2OkIndexer).isSome = true ∧
    strStartsWith (tryIntoBody c2OkIndexer ⟨"https", some "idx.example", false⟩).url.scheme
      "http" = true ∧
    (tryIntoBody c2OkIndexer ⟨"https", some "idx.example", false⟩).url.host ≠ none := by
  have h := c2_preprocess_accept_amended c2OkIndexer
  refine ⟨h.1.mpr ⟨"https://idx.example", ⟨"https", some "idx.example", false⟩,
    by decide, by decide, by decide, by decide, by decide, by decide⟩, ?_, ?_⟩
  · exact (h.2 (tryIntoBody c2OkIndexer ⟨"https", some "idx.example", false⟩) (by decide)).1
  · exact (h.2 (tryIntoBody c2OkIndexer ⟨"https", some "idx.example", false⟩) (by decide)).2

/-! ## Claims C3, C7, C6 -/

/-- A concrete indexer record used to witness the pipeline-step claims. -/
def sampleIndexer : IndexerInfo :=
  { id := 1
    url := ⟨"http", some "a", false⟩
    stakedTokens := 0
    deployments := [5, 6]
    indexerAgentVersion := ⟨0, 0, 0⟩
    graphNodeVersion := ⟨0, 0, 0⟩
    largestAllocation := [(5, 2), (6, 3)]
    totalAllocatedTokens := [(5, 8), (6, 1)]
    indexingsProgress := []
    indexingsCostModel := [] }

/-- Claim C3: in the version-check step, a failed agent probe blocks the indexer;
an agent version below the minimum blocks; a failed graph-node probe (after
a passing agent probe) falls back to the minimum graph-node version and the
indexer is accepted with that version written; a resolved graph-node
version below the minimum blocks; on full success both resolved versions
are written. -/
theorem c3_version_check (ar nr : Url → Option Version) (mA mN : Version)
    (ind : IndexerInfo) :
    (ar ind.url = none →
      resolveAndCheckIndexerBlockedByVersion ar nr mA mN ind = none) ∧
    (∀ av, ar ind.url = some av → vlt av mA = true →
      resolveAndCheckIndexerBlockedByVersion ar nr mA mN ind = none) ∧
    (∀ av, ar ind.url = some av → vlt av mA = false → nr ind.url = none →
      resolveAndCheckIndexerBlockedByVersion ar nr mA mN ind =
        some { ind with indexerAgentVersion := av, graphNodeVersion := mN }) ∧
    (∀ av nv, ar ind.url = some av → vlt av mA = false → nr ind.url = some nv →
      vlt nv mN = true →
      resolveAndCheckIndexerBlockedByVersion ar nr mA mN ind = none) ∧
    (∀ av nv, ar ind.url = some av → vlt av mA = false → nr ind.url = some nv →
      vlt nv mN = false →
      resolveAndCheckIndexerBlockedByVersion ar nr mA mN ind =
        some { ind with indexerAgentVersion := av, graphNodeVersion := nv }) := by
  refine ⟨?_, ?_, ?_, ?_, ?_⟩
  · intro h
    simp [resolveAndCheckIndexerBlockedByVersion, h]
  · intro av h hlt
    simp [resolveAndCheckIndexerBlockedByVersion, h, hlt]
  · intro av h hlt hn
    simp [resolveAndCheckIndexerBlockedByVersion, h, hlt, hn, vlt_irrefl]
  · intro av nv h hlt hn hnlt
    simp [resolveAndCheckIndexerBlockedByVersion, h, hlt, hn, hnlt]
  · intro av nv h hlt hn hnlt
    simp [resolveAndCheckIndexerBlockedByVersion, h, hlt, hn, hnlt]

/-- Witness for C3: an agent at 1.2.3 with minimum 1.0.0 and a failed
graph-node probe with minimum 0.5.0 is accepted at graph-node 0.5.0. -/
theorem c3_version_check_w :
    resolveAndCheckIndexerBlockedByVersion (fun _ => some ⟨1, 2, 3⟩) (fun _ => none)
      ⟨1, 0, 0⟩ ⟨0, 5, 0⟩ sampleIndexer =
      some { sampleIndexer with
        indexerAgentVersion := ⟨1, 2, 3⟩, graphNodeVersion := ⟨0, 5, 0⟩ } :=
  (c3_version_check (fun _ => some ⟨1, 2, 3⟩) (fun _ => none)
    ⟨1, 0, 0⟩ ⟨0, 5, 0⟩ sampleIndexer).2.2.1 ⟨1, 2, 3⟩ rfl (by decide) rfl

/-- Claim C7: in the host check, a failed (or timed-out) resolution blocks the
indexer regardless of whether a blocklist is configured; after a successful
resolution an absent blocklist allows the indexer, and a configured
blocklist blocks it exactly when the check matches the resolution result. -/
theorem c7_host_check (resolve : Url → Option HostResolution)
    (blocklist : Option HostBlocklistConf) (ind : IndexerInfo) :
    (resolve ind.url = none →
      resolveAndCheckIndexerBlockedByHostBlocklist resolve blocklist ind = none) ∧
    (∀ r, resolve ind.url = some r → blocklist = none →
      resolveAndCheckIndexerBlockedByHostBlocklist resolve blocklist ind = some ()) ∧
    (∀ r conf, resolve ind.url = some r → blocklist = some conf →
      (resolveAndCheckIndexerBlockedByHostBlocklist resolve blocklist ind = none ↔
        hostBlocklistCheck conf r = true)) := by
  refine ⟨?_, ?_, ?_⟩
  · intro h
    simp [resolveAndCheckIndexerBlockedByHostBlocklist, h]
  · intro r h hb
    simp [resolveAndCheckIndexerBlockedByHostBlocklist, h, hb]
  · intro r conf h hb
    cases hchk : hostBlocklistCheck conf r with
    | true => simp [resolveAndCheckIndexerBlockedByHostBlocklist, h, hb, hchk]
    | false => simp [resolveAndCheckIndexerBlockedByHostBlocklist, h, hb, hchk]

/-- Witness for C7: a resolution inside a configured blocked range is
blocked; a failed resolution with no blocklist configured is blocked too. -/
theorem c7_host_check_w :
    resolveAndCheckIndexerBlockedByHostBlocklist (fun _ => some [31]) (some [(0, 255)])
      sampleIndexer = none ∧
    resolveAndCheckIndexerBlockedByHostBlocklist (fun _ => none) none
      sampleIndexer = none := by
  constructor
  · exact ((c7_host_check (fun _ => some [31]) (some [(0, 255)]) sampleIndexer).2.2
      [31] [(0, 255)] rfl rfl).mpr (by decide)
  · exact (c7_host_check (fun _ => none) none sampleIndexer).1 rfl

/-- Claim C6: the cost-model step never drops an indexer and touches no field
other than `indexings_cost_model`; a failed or empty resolution returns the
record completely unchanged (so the field stays empty, as the pipeline
hands it over empty). -/
theorem c6_cost_model_frame
    (resolve : Url → List DeploymentId → Option (List (DeploymentId × String)))
    (compile : String → Option CostModel) (ind : IndexerInfo) :
    (∃ ind2, resolveIndexerIndexingCostModels resolve compile ind = some ind2 ∧
      ind2.id = ind.id ∧ ind2.url = ind.url ∧ ind2.stakedTokens = ind.stakedTokens ∧
      ind2.deployments = ind.deployments ∧
      ind2.indexerAgentVersion = ind.indexerAgentVersion ∧
      ind2.graphNodeVersion = ind.graphNodeVersion ∧
      ind2.largestAllocation = ind.largestAllocation ∧
      ind2.totalAllocatedTokens = ind.totalAllocatedTokens ∧
      ind2.indexingsProgress = ind.indexingsProgress) ∧
    (resolve ind.url ind.deployments = none →
      resolveIndexerIndexingCostModels resolve compile ind = some ind) ∧
    (resolve ind.url ind.deployments = some [] →
      resolveIndexerIndexingCostModels resolve compile ind = some ind) := by
  refine ⟨?_, ?_, ?_⟩
  · cases hres : resolve ind.url ind.deployments with
    | none =>
      exact ⟨ind, by simp [resolveIndexerIndexingCostModels, hres],
        rfl, rfl, rfl, rfl, rfl, rfl, rfl, rfl, rfl⟩
    | some res =>
      cases res with
      | nil =>
        exact ⟨ind, by simp [resolveIndexerIndexingCostModels, hres],
          rfl, rfl, rfl, rfl, rfl, rfl, rfl, rfl, rfl⟩
      | cons r0 rrest =>
        refine ⟨{ ind with indexingsCostModel := toMap ((r0 :: rrest).filterMap (fun p => (compile p.2).map (fun cm => (p.1, cm)))) }, by simp [resolveIndexerIndexingCostModels, hres], rfl, rfl, rfl, rfl, rfl, rfl, rfl, rfl, rfl⟩
  · intro hres
    simp [resolveIndexerIndexingCostModels, hres]
  · intro hres
    simp [resolveIndexerIndexingCostModels, hres]

/-- Witness for C6: a failed cost-model resolution leaves `sampleIndexer`
untouched. -/
theorem c6_cost_model_frame_w :
    resolveIndexerIndexingCostModels (fun _ _ => none) (fun s => some s)
      sampleIndexer = some sampleIndexer :=
  (c6_cost_model_frame (fun _ _ => none) (fun s => some s) sampleIndexer).2.1 rfl

/-! ## Claim C5 -/

theorem affectedPoisMetadata_eq_nil (conf : PoiBlocklistConf) (deps : List DeploymentId) :
    affectedPoisMetadata conf deps = [] ↔ ∀ t ∈ conf.triples, t.1 ∉ deps := by
  simp [affectedPoisMetadata]

theorem mem_poiKeptDeployments (conf : PoiBlocklistConf)
    (poiResult : List ((DeploymentId × Nat) × Poi)) (deps : List DeploymentId)
    (d : DeploymentId) :
    d ∈ poiKeptDeployments conf poiResult deps ↔
      (d ∈ deps ∧ poiCheck conf poiResult d ≠ some true) := by
  simp only [poiKeptDeployments, List.mem_filter]
  cases hc : poiCheck conf poiResult d with
  | none => simp
  | some b => cases b <;> simp

/-- Claim C5: in the POI check, an unconfigured blocklist, or an empty
intersection between the indexer's deployments and the blocklist's
configured deployments, accepts the indexer without consulting the probe;
otherwise a failed probe blocks the indexer, the surviving deployments are
exactly those the check result does not block (deployments not named are
kept), and an emptied deployments set blocks the indexer. -/
theorem c5_poi_check (blocklist : Option PoiBlocklistConf)
    (pr1 pr2 : Url → List (DeploymentId × Nat) → Option (List ((DeploymentId × Nat) × Poi)))
    (ind : IndexerInfo) :
    (blocklist = none →
      resolveAndCheckIndexerBlockedByPoi blocklist pr1 ind = some ind) ∧
    (∀ conf, blocklist = some conf → (∀ t ∈ conf.triples, t.1 ∉ ind.deployments) →
      resolveAndCheckIndexerBlockedByPoi blocklist pr1 ind = some ind ∧
      resolveAndCheckIndexerBlockedByPoi blocklist pr1 ind =
        resolveAndCheckIndexerBlockedByPoi blocklist pr2 ind) ∧
    (∀ conf, blocklist = some conf →
      affectedPoisMetadata conf ind.deployments ≠ [] →
      pr1 ind.url (affectedPoisMetadata conf ind.deployments) = none →
      resolveAndCheckIndexerBlockedByPoi blocklist pr1 ind = none) ∧
    (∀ conf poiResult, blocklist = some conf →
      affectedPoisMetadata conf ind.deployments ≠ [] →
      pr1 ind.url (affectedPoisMetadata conf ind.deployments) = some poiResult →
      ((∀ info, resolveAndCheckIndexerBlockedByPoi blocklist pr1 ind = some info →
        ∀ d, d ∈ info.deployments ↔
          (d ∈ ind.deployments ∧ poiCheck conf poiResult d ≠ some true)) ∧
       ((∀ d ∈ ind.deployments, poiCheck conf poiResult d = some true) →
        resolveAndCheckIndexerBlockedByPoi blocklist pr1 ind = none))) := by
  refine ⟨?_, ?_, ?_, ?_⟩
  · intro h
    simp [resolveAndCheckIndexerBlockedByPoi, h]
  · intro conf hb hint
    subst hb
    have haff : affectedPoisMetadata conf ind.deployments = [] :=
      (affectedPoisMetadata_eq_nil conf ind.deployments).mpr hint
    constructor
    · simp [resolveAndCheckIndexerBlockedByPoi, haff]
    · simp [resolveAndCheckIndexerBlockedByPoi, haff]
  · intro conf hb haff hp
    subst hb
    cases haffm : affectedPoisMetadata conf ind.deployments with
    | nil => exact absurd haffm haff
    | cons a0 arest =>
      rw [haffm] at hp
      simp [resolveAndCheckIndexerBlockedByPoi, haffm, hp]
  · intro conf poiResult hb haff hp
    subst hb
    cases haffm : affectedPoisMetadata conf ind.deployments with
    | nil => exact absurd haffm haff
    | cons a0 arest =>
      rw [haffm] at hp
      constructor
      · intro info hinfo d
        cases hkept : poiKeptDeployments conf poiResult ind.deployments with
        | nil =>
          simp [resolveAndCheckIndexerBlockedByPoi, haffm, hp, hkept] at hinfo
        | cons k0 krest =>
          simp only [resolveAndCheckIndexerBlockedByPoi, haffm, hp, hkept,
            Option.some.injEq] at hinfo
          rw [← hinfo, ← hkept]
          exact mem_poiKeptDeployments conf poiResult ind.deployments d
      · intro hall
        have hkept : poiKeptDeployments conf poiResult ind.deployments = [] := by
          rw [poiKeptDeployments, List.filter_eq_nil_iff]
          intro d hd
          simp [hall d hd]
        simp [resolveAndCheckIndexerBlockedByPoi, haffm, hp, hkept]

/-- Witness inputs for claim C5: one forbidden POI on deployment 5 at block 100; the
probe reports exactly that POI, so deployment 5 is blocked and deployment 6
survives. -/
def poiConf : PoiBlocklistConf := { triples := [(5, 100, 222)] }

/-- Witness for C5 at `sampleIndexer` (deployments `[5, 6]`). -/
theorem c5_poi_check_w :
    (6 ∈ ({ sampleIndexer with deployments := [6] } : IndexerInfo).deployments ↔
      (6 ∈ sampleIndexer.deployments ∧
        poiCheck poiConf [((5, 100), 222)] 6 ≠ some true)) ∧
    resolveAndCheckIndexerBlockedByPoi none (fun _ _ => none) sampleIndexer =
      some sampleIndexer := by
  constructor
  · exact ((c5_poi_check (some poiConf) (fun _ _ => some [((5, 100), 222)])
      (fun _ _ => none) sampleIndexer).2.2.2 poiConf [((5, 100), 222)] rfl
      (by decide) (by decide)).1 { sampleIndexer with deployments := [6] } (by decide) 6
  · exact (c5_poi_check none (fun _ _ => none) (fun _ _ => none) sampleIndexer).1 rfl

/-! ## Claim C4 -/

theorem tryIntoInternalSubgraphInfo_eq_none (s : FSSubgraph) :
    tryIntoInternalSubgraphInfo s = none ↔ s.versions = [] := by
  cases hv : s.versions with
  | nil => simp [tryIntoInternalSubgraphInfo, hv]
  | cons v0 vrest => simp [tryIntoInternalSubgraphInfo, hv]

theorem tryIntoInternalSubgraphInfo_id (s : FSSubgraph) (info : SubgraphInfo)
    (h : tryIntoInternalSubgraphInfo s = some info) : info.id = s.id := by
  cases hv : s.versions with
  | nil => simp [tryIntoInternalSubgraphInfo, hv] at h
  | cons v0 vrest =>
    simp only [tryIntoInternalSubgraphInfo, hv, Option.some.injEq] at h
    rw [← h]

/-- Claim C4: the fetch-and-pre-process functions error exactly when the fetch
fails, the fetched collection is empty, or no record survives validation;
on success they return a non-empty map keyed by id; and
`process_indexers_info` errors exactly when zero indexers survive the
pipeline. -/
theorem c4_error_iff (fi : List FIIndexer) (fs : List FSSubgraph)
    (st : InternalStateM) (inds : List (Addr × IndexerInfo)) :
    fetchAndPreProcessIndexersInfo none = none ∧
    fetchAndPreProcessSubgraphsInfo none = none ∧
    (fetchAndPreProcessIndexersInfo (some fi) = none ↔
      fi = [] ∨ ∀ i ∈ fi, tryIntoInternalIndexerInfo Url.parse i = none) ∧
    (∀ m, fetchAndPreProcessIndexersInfo (some fi) = some m →
      m ≠ [] ∧ ∀ p ∈ m, p.1 = p.2.id) ∧
    (fetchAndPreProcessSubgraphsInfo (some fs) = none ↔
      fs = [] ∨ ∀ s ∈ fs, s.versions = []) ∧
    (∀ m, fetchAndPreProcessSubgraphsInfo (some fs) = some m →
      m ≠ [] ∧ ∀ p ∈ m, p.1 = p.2.id) ∧
    (processIndexersInfo st inds = none ↔ ∀ p ∈ inds, processIndexer st p.2 = none) := by
  refine ⟨rfl, rfl, ?_, ?_, ?_, ?_, ?_⟩
  · cases fi with
    | nil => simp [fetchAndPreProcessIndexersInfo]
    | cons i0 irest =>
      constructor
      · intro h
        right
        cases hm : toMap ((i0 :: irest).filterMap (fun i =>
            (tryIntoInternalIndexerInfo Url.parse i).map (fun info => (info.id, info)))) with
        | nil =>
          have := (toMap_eq_nil _).mp hm
          rw [List.filterMap_eq_nil_iff] at this
          intro i hi
          have := this i hi
          cases hti : tryIntoInternalIndexerInfo Url.parse i with
          | none => rfl
          | some info => rw [hti] at this; simp at this
        | cons p0 prest =>
          simp [fetchAndPreProcessIndexersInfo, hm] at h
      · intro h
        rcases h with h | h
        · exact absurd h (List.cons_ne_nil i0 irest)
        · have hfm : (i0 :: irest).filterMap (fun i =>
              (tryIntoInternalIndexerInfo Url.parse i).map
                (fun info => (info.id, info))) = [] := by
            rw [List.filterMap_eq_nil_iff]
            intro i hi
            rw [h i hi]
            rfl
          simp [fetchAndPreProcessIndexersInfo, hfm, toMap]
  · intro m hm
    cases fi with
    | nil => simp [fetchAndPreProcessIndexersInfo] at hm
    | cons i0 irest =>
      cases hmm : toMap ((i0 :: irest).filterMap (fun i =>
          (tryIntoInternalIndexerInfo Url.parse i).map (fun info => (info.id, info)))) with
      | nil => simp [fetchAndPreProcessIndexersInfo, hmm] at hm
      | cons p0 prest =>
        simp only [fetchAndPreProcessIndexersInfo, hmm, Option.some.injEq] at hm
        subst hm
        refine ⟨List.cons_ne_nil p0 prest, ?_⟩
        intro p hp
        rw [← hmm] at hp
        have hp2 := toMap_subset _ p hp
        rcases List.mem_filterMap.mp hp2 with ⟨i, _, hi⟩
        cases hti : tryIntoInternalIndexerInfo Url.parse i with
        | none => rw [hti] at hi; simp at hi
        | some info =>
          rw [hti] at hi
          simp only [Option.map_some', Option.some.injEq] at hi
          rw [← hi]
  · cases fs with
    | nil => simp [fetchAndPreProcessSubgraphsInfo]
    | cons s0 srest =>
      constructor
      · intro h
        right
        cases hm : toMap ((s0 :: srest).filterMap (fun s =>
            (tryIntoInternalSubgraphInfo s).map (fun info => (info.id, info)))) with
        | nil =>
          have := (toMap_eq_nil _).mp hm
          rw [List.filterMap_eq_nil_iff] at this
          intro s hs
          have hthis := this s hs
          rw [← tryIntoInternalSubgraphInfo_eq_none]
          cases hti : tryIntoInternalSubgraphInfo s with
          | none => rfl
          | some info => rw [hti] at hthis; simp at hthis
        | cons p0 prest =>
          simp [fetchAndPreProcessSubgraphsInfo, hm] at h
      · intro h
        rcases h with h | h
        · exact absurd h (List.cons_ne_nil s0 srest)
        · have hfm : (s0 :: srest).filterMap (fun s =>
              (tryIntoInternalSubgraphInfo s).map (fun info => (info.id, info))) = [] := by
            rw [List.filterMap_eq_nil_iff]
            intro s hs
            rw [(tryIntoInternalSubgraphInfo_eq_none s).mpr (h s hs)]
            rfl
          simp [fetchAndPreProcessSubgraphsInfo, hfm, toMap]
  · intro m hm
    cases fs with
    | nil => simp [fetchAndPreProcessSubgraphsInfo] at hm
    | cons s0 srest =>
      cases hmm : toMap ((s0 :: srest).filterMap (fun s =>
          (tryIntoInternalSubgraphInfo s).map (fun info => (info.id, info)))) with
      | nil => simp [fetchAndPreProcessSubgraphsInfo, hmm] at hm
      | cons p0 prest =>
        simp only [fetchAndPreProcessSubgraphsInfo, hmm, Option.some.injEq] at hm
        subst hm
        refine ⟨List.cons_ne_nil p0 prest, ?_⟩
        intro p hp
        rw [← hmm] at hp
        have hp2 := toMap_subset _ p hp
        rcases List.mem_filterMap.mp hp2 with ⟨s, _, hs⟩
        cases hti : tryIntoInternalSubgraphInfo s with
        | none => rw [hti] at hs; simp at hs
        | some info =>
          rw [hti] at hs
          simp only [Option.map_some', Option.some.injEq] at hs
          rw [← hs]
  · constructor
    · intro h p hp
      cases hproc : toMap (inds.filterMap (fun p =>
          (processIndexer st p.2).map (fun i => (p.1, i)))) with
      | nil =>
        have := (toMap_eq_nil _).mp hproc
        rw [List.filterMap_eq_nil_iff] at this
        have hthis := this p hp
        cases hpi : processIndexer st p.2 with
        | none => rfl
        | some i => rw [hpi] at hthis; simp at hthis
      | cons q0 qrest =>
        simp [processIndexersInfo, hproc] at h
    · intro h
      have hfm : inds.filterMap (fun p =>
          (processIndexer st p.2).map (fun i => (p.1, i))) = [] := by
        rw [List.filterMap_eq_nil_iff]
        intro p hp
        rw [h p hp]
        rfl
      simp [processIndexersInfo, hfm, toMap]

/-- A concrete pipeline state: no blocklists, all probes succeed. -/
def sampleState : InternalStateM :=
  { minAgentVersion := ⟨0, 0, 0⟩
    minGraphNodeVersion := ⟨0, 0, 0⟩
    addrBlocklist := none
    hostResolve := fun _ => some [1]
    hostBlocklist := none
    agentResolve := fun _ => some ⟨1, 0, 0⟩
    nodeResolve := fun _ => some ⟨1, 0, 0⟩
    poiBlocklist := none
    poiResolve := fun _ _ => some []
    progressResolve := fun _ _ => some []
    costResolve := fun _ _ => some []
    costCompile := fun s => some s }

/-- A raw indexer with no URL: dropped by pre-processing. -/
def c4BadIndexer : FIIndexer :=
  { id := 0, url := none, stakedTokens := 0, allocations := [] }

/-- Witness for C4: a fetch whose only record fails validation errors, an
empty subgraph fetch errors, and a pipeline with zero indexers errors. -/
theorem c4_error_iff_w :
    fetchAndPreProcessIndexersInfo (some [c4BadIndexer]) = none ∧
    fetchAndPreProcessSubgraphsInfo (some []) = none ∧
    processIndexersInfo sampleState [] = none := by
  refine ⟨?_, ?_, ?_⟩
  · exact (c4_error_iff [c4BadIndexer] [] sampleState []).2.2.1.mpr
      (Or.inr (by intro i hi; rw [List.mem_singleton.mp hi]; decide))
  · exact (c4_error_iff [c4BadIndexer] [] sampleState []).2.2.2.2.1.mpr (Or.inl rfl)
  · exact (c4_error_iff [c4BadIndexer] [] sampleState []).2.2.2.2.2.2.mpr
      (by intro p hp; simp at hp)

/-! ## Claim C8 -/

theorem toMap_eq_self {α β : Type} [DecidableEq α] (l : List (α × β))
    (h : (l.map Prod.fst).Nodup) : toMap l = l := by
  induction l with
  | nil => rfl
  | cons p rest ih =>
    rw [List.map_cons, List.nodup_cons] at h
    have hnot : rest.any (fun q => q.1 = p.1) = false := by
      rw [List.any_eq_false]
      intro q hq
      simp only [decide_eq_true_eq]
      intro heq
      exact h.1 (heq ▸ List.mem_map_of_mem Prod.fst hq)
    simp only [toMap, hnot, Bool.false_eq_true, if_false]
    exact congrArg (List.cons p) (ih h.2)

theorem graphNetworkDeployment_eq_some (subs : List NSSubgraph) (ipBlocked : Url → Bool)
    (v : NSVersion) (m : NSManifest) (net : String)
    (hm : v.subgraphDeployment.manifest = some m) (hnet : m.network = some net) :
    graphNetworkDeployment subs ipBlocked v =
      some (graphNetworkDeploymentBody subs ipBlocked v m net) := by
  simp [graphNetworkDeployment, hm, hnet]

theorem graphNetworkDeployment_indexers_empty (subs : List NSSubgraph)
    (ipBlocked : Url → Bool) (v : NSVersion) (depT : DeploymentT)
    (h : graphNetworkDeployment subs ipBlocked v = some depT)
    (hall : ∀ u, ipBlocked u = true) : depT.indexers = [] := by
  unfold graphNetworkDeployment at h
  split at h
  · exact Option.noConfusion h
  next m hm =>
    split at h
    · exact Option.noConfusion h
    next net hnet =>
      have hb := Option.some.inj h
      subst hb
      show (graphNetworkDeploymentBody subs ipBlocked v m net).indexers = []
      simp only [graphNetworkDeploymentBody]
      rw [List.filter_eq_nil_iff]
      intro p _
      simp [hall]

/-- Claim C8, amended: in every published topology, a deployment referenced by a
version of a surviving subgraph WHOSE MANIFEST IS PRESENT AND CARRIES A
NETWORK is still a key of the deployments map even when every indexer is
ip-blocked (the values then have empty indexer maps), and every deployment
key is referenced by some subgraph of the subgraphs map. (Subgraph ids are
assumed distinct, as registry records are keyed by id.) -/
theorem c8_topology_amended (subs : List NSSubgraph) (ipBlocked : Url → Bool)
    (hnodup : (subs.map (fun s => s.id)).Nodup) :
    (∀ s ∈ subs, ∀ v ∈ s.versions, ∀ m net,
      v.subgraphDeployment.manifest = some m → m.network = some net →
      ∃ d, (v.subgraphDeployment.id, d) ∈ graphNetworkDeployments subs ipBlocked) ∧
    (∀ p ∈ graphNetworkDeployments subs ipBlocked,
      ∃ q ∈ graphNetworkSubgraphs subs ipBlocked,
        ∃ dep ∈ q.2.deployments, dep.id = p.1) ∧
    ((∀ u, ipBlocked u = true) →
      ∀ p ∈ graphNetworkDeployments subs ipBlocked, p.2.indexers = []) := by
  have hkeys : ((subs.map (fun s =>
      (s.id, (⟨s.id, s.idOnL2,
        s.versions.filterMap (graphNetworkDeployment subs ipBlocked)⟩ : SubgraphT)))).map
      Prod.fst).Nodup := by
    rw [List.map_map]
    exact hnodup
  have hsgm : graphNetworkSubgraphs subs ipBlocked = subs.map (fun s =>
      (s.id, (⟨s.id, s.idOnL2,
        s.versions.filterMap (graphNetworkDeployment subs ipBlocked)⟩ : SubgraphT))) := by
    rw [graphNetworkSubgraphs]
    exact toMap_eq_self _ hkeys
  refine ⟨?_, ?_, ?_⟩
  · intro s hs v hv m net hm hnet
    have hsome := graphNetworkDeployment_eq_some subs ipBlocked v m net hm hnet
    have hdep : graphNetworkDeploymentBody subs ipBlocked v m net ∈
        s.versions.filterMap (graphNetworkDeployment subs ipBlocked) :=
      List.mem_filterMap.mpr ⟨v, hv, hsome⟩
    refine (mem_keys_toMap _ _).mpr
      ⟨graphNetworkDeploymentBody subs ipBlocked v m net, ?_⟩
    rw [hsgm]
    refine List.mem_flatMap.mpr ⟨⟨s.id, s.idOnL2,
      s.versions.filterMap (graphNetworkDeployment subs ipBlocked)⟩, ?_, ?_⟩
    · rw [List.map_map]
      exact List.mem_map_of_mem _ hs
    · exact List.mem_map_of_mem (fun d => (d.id, d)) hdep
  · intro p hp
    have hp1 := toMap_subset _ p hp
    rcases List.mem_flatMap.mp hp1 with ⟨sg, hsg, hpm⟩
    rcases List.mem_map.mp hsg with ⟨q, hq, hq2⟩
    rcases List.mem_map.mp hpm with ⟨dep, hdep, hrfl⟩
    refine ⟨q, hq, dep, ?_, ?_⟩
    · rw [hq2]; exact hdep
    · exact congrArg Prod.fst hrfl
  · intro hall p hp
    have hp1 := toMap_subset _ p hp
    rcases List.mem_flatMap.mp hp1 with ⟨sg, hsg, hpm⟩
    rcases List.mem_map.mp hsg with ⟨q, hq, hq2⟩
    rcases List.mem_map.mp hpm with ⟨dep, hdep, hrfl⟩
    rw [hsgm] at hq
    rcases List.mem_map.mp hq with ⟨s, _, hqs⟩
    have hdeps : q.2.deployments = s.versions.filterMap
        (graphNetworkDeployment subs ipBlocked) := by
      rw [← hqs]
    rw [← hq2, hdeps] at hdep
    rcases List.mem_filterMap.mp hdep with ⟨v, _, hv⟩
    have hempty := graphNetworkDeployment_indexers_empty subs ipBlocked v dep hv hall
    rw [← hrfl]
    exact hempty

/-- Counterexample input for claim C8: one subgraph whose only version references
deployment 7, but the deployment has no manifest. -/
def c8BadSubgraph : NSSubgraph :=
  { id := 0, idOnL2 := none, versions := [⟨⟨7, [], none, false⟩⟩] }

/-- Claim C8, counterexample: subgraph 0 survives into the subgraphs map and its
version references deployment 7, yet the deployments map is empty (no
indexer was blocked — the manifest is simply absent), so the claim that
every deployment referenced by a version of a surviving subgraph stays a
key is false as stated. -/
theorem c8_topology_cex :
    graphNetworkSubgraphs [c8BadSubgraph] (fun _ => false) = [(0, ⟨0, none, []⟩)] ∧
    c8BadSubgraph.versions.map (fun v => v.subgraphDeployment.id) = [7] ∧
    graphNetworkDeployments [c8BadSubgraph] (fun _ => false) = [] := by
  refine ⟨by decide, by decide, by decide⟩

/-- Witness input for claim C8: one subgraph whose only version carries a manifest
with a network, served by one indexer. -/
def c8GoodSubgraph : NSSubgraph :=
  { id := 2
    idOnL2 := none
    versions := [⟨⟨7, [⟨4, ⟨8, some "http://i", 10⟩, 6⟩], some ⟨some "mainnet", none⟩,
      false⟩⟩] }

/-- Witness for the amended C8: with every indexer ip-blocked, deployment 7
is still a key of the deployments map, and the published value at the
concrete blocked deployment has no indexers. -/
theorem c8_topology_amended_w :
    (∃ d, ((7 : DeploymentId), d) ∈
      graphNetworkDeployments [c8GoodSubgraph] (fun _ => true)) ∧
    ((⟨7, ⟨"mainnet", 0⟩, [], [2], false⟩ : DeploymentT)).indexers = [] := by
  constructor
  · exact (c8_topology_amended [c8GoodSubgraph] (fun _ => true) (by decide)).1
      c8GoodSubgraph (by decide)
      ⟨⟨7, [⟨4, ⟨8, some "http://i", 10⟩, 6⟩], some ⟨some "mainnet", none⟩, false⟩⟩
      (by decide) ⟨some "mainnet", none⟩ "mainnet" rfl rfl
  · exact (c8_topology_amended [c8GoodSubgraph] (fun _ => true) (by decide)).2.2
      (fun _ => rfl) (7, ⟨7, ⟨"mainnet", 0⟩, [], [2], false⟩) (by decide)

/-! ## Claim C9 -/

/-- Failing input for claim C9: the indexer URL `mailto:x` parses successfully (so the
allocation passes the processing filter) but is a cannot-be-a-base URL. -/
def c9Subgraph : NSSubgraph :=
  { id := 1
    idOnL2 := none
    versions := [⟨⟨7, [⟨4, ⟨8, some "mailto:x", 10⟩, 6⟩], some ⟨some "mainnet", some 1⟩,
      false⟩⟩] }

/-- The indexer record `GraphNetwork::deployment` builds for `c9Subgraph`. -/
def c9Indexer : IndexerT :=
  { id := 8
    url := ⟨"mailto", none, true⟩
    stakedTokens := 10
    largestAllocation := 4
    allocatedTokens := 6 }

/-- Claim C9: the claim is right and the code is wrong — an `Indexer` value
reachable from the constructed network (its URL passed the
allocation-processing filter, which only requires `Url::parse` to succeed)
can have a cannot-be-a-base URL such as `mailto:x`, on which `Url::join`
fails, so the `unwrap` in `cost_url`/`status_url` panics (`none` here). -/
theorem c9_cost_url_code_bug :
    alookup (graphNetworkDeployments [c9Subgraph] (fun _ => false)) 7 =
      some ⟨7, ⟨"mainnet", 1⟩, [(8, c9Indexer)], [1], false⟩ ∧
    alookup (⟨7, ⟨"mainnet", 1⟩, [(8, c9Indexer)], [1], false⟩ : DeploymentT).indexers 8 =
      some c9Indexer ∧
    c9Indexer.costUrl = none ∧
    c9Indexer.statusUrl = none := by
  refine ⟨by decide, by decide, by decide, by decide⟩

/-! ## Claim C10 -/

/-- Claim C10: each authorization predicate returns true for every input when the
authorized list is empty. -/
theorem c10_auth_empty_allows_all (d : DeploymentId) (ds : List DeploymentId)
    (sg : SubgraphId) (sgs : List SubgraphId) (origin : String) :
    is_deployment_authorized [] d = true ∧
    are_deployments_authorized [] ds = true ∧
    is_subgraph_authorized [] sg = true ∧
    are_subgraphs_authorized [] sgs = true ∧
    is_domain_authorized [] origin = true := by
  refine ⟨rfl, rfl, rfl, rfl, rfl⟩
